import Mathlib

/-!
Verification of the log parser (src/log_parser.py) against its design
specification.  The Python program is shallowly embedded: JSON values
decoded by json.loads become the inductive type JsonValue, exceptions
become an explicit PyError sum carried in Except or in an err field,
printing becomes an accumulated list of output lines, and the
filesystem becomes an explicit record of a path-existence predicate and
a line-reading function.  The json.loads decoder itself is standard
library code outside the repository, so the loader is parameterised by
an arbitrary decoder String to Option JsonValue; concrete instances are
used in witnesses.
-/

namespace LogSpec

/-- A JSON value as produced by json.loads: null, bool, number, string,
array or object.  Numbers are modelled as integers, which covers every
input exercised by the specification scenarios. -/
inductive JsonValue : Type where
  | null : JsonValue
  | bool : Bool → JsonValue
  | num : Int → JsonValue
  | str : String → JsonValue
  | arr : List JsonValue → JsonValue
  | obj : List (String × JsonValue) → JsonValue
  deriving Repr

/-- Python exceptions that the program can raise and catch. -/
inductive PyError : Type where
  | fileNotFoundError : String → PyError
  | attributeError : String → PyError
  | typeError : String → PyError
  deriving Repr, DecidableEq

/-- The Python type name of a decoded JSON value, as it appears inside
exception messages. -/
def pyTypeName : JsonValue → String
  | .null => "NoneType"
  | .bool _ => "bool"
  | .num _ => "int"
  | .str _ => "str"
  | .arr _ => "list"
  | .obj _ => "dict"

/-- Numeric view used by Python comparisons and dict-key equality:
bool is a subtype of int, True being 1 and False being 0. -/
def numVal : JsonValue → Option Int
  | .bool b => some (if b then 1 else 0)
  | .num n => some n
  | _ => none

/-- Python equality as used for dictionary (Counter) key lookup.  The
cases that matter are the hashable values: None, bool, int, str, with
bool and int identified numerically.  Containers are unhashable and are
rejected before any key comparison happens, so their equality never
enters the Counter. -/
def pyEq (a b : JsonValue) : Bool :=
  match a, b with
  | .null, .null => true
  | .str s, .str t => s == t
  | .bool x, .bool y => x == y
  | .bool x, .num m => (if x then (1 : Int) else 0) == m
  | .num n, .bool y => n == (if y then (1 : Int) else 0)
  | .num n, .num m => n == m
  | _, _ => false

/-- Whether a value is hashable in Python, hence usable as a Counter
key.  Lists and dicts are not. -/
def hashable : JsonValue → Bool
  | .arr _ => false
  | .obj _ => false
  | _ => true

/-- Whether a value is a mapping (a Python dict). -/
def isMapping : JsonValue → Bool
  | .obj _ => true
  | _ => false

/-- Key lookup in a decoded JSON object.  Objects handed to the
summarizer come from json.loads, whose dictionaries have unique keys,
so first-match lookup coincides with Python dict lookup. -/
def lookupField (fields : List (String × JsonValue)) (key : String) : Option JsonValue :=
  match fields with
  | [] => none
  | (k, v) :: rest => if k == key then some v else lookupField rest key

/-- The expression log.get("level", "UNKNOWN") from display_summary,
line 51: dict lookup with a default on a mapping, an AttributeError on
every other decoded value, since only dict has a get method. -/
def pyGet (v : JsonValue) (key : String) (default : JsonValue) : Except PyError JsonValue :=
  match v with
  | .obj fields => .ok ((lookupField fields key).getD default)
  | _ =>
    .error (.attributeError
      (("\x27".append (pyTypeName v)).append "\x27 object has no attribute \x27get\x27"))

/-- Whitespace characters recognised by str.strip (the ASCII ones,
which cover the inputs of interest). -/
def isPySpace (c : Char) : Bool :=
  c == ' ' || c == '\t' || c == '\n' || c == '\r' || c == '\x0b' || c == '\x0c'

/-- The test "not line.strip()" from _load_logs, line 36: true exactly
when the line consists only of whitespace. -/
def isBlank (line : String) : Bool :=
  line.toList.all isPySpace

/-- The diagnostic printed by _load_logs, line 40, for a malformed
line, with its 1-based line number. -/
def warnLine (i : Nat) : String :=
  "Warning: Skipping malformed JSON on line ".append (toString i)

/-- The loop body of _load_logs, lines 34 to 41: lines are numbered
from i, whitespace-only lines are skipped silently, decodable lines are
appended in order, and each undecodable line contributes one warning
and nothing else.  The decoder stands for json.loads. -/
def loadLogsAux (dec : String → Option JsonValue) : Nat → List String → List JsonValue × List String
  | _, [] => ([], [])
  | i, line :: rest =>
    let r := loadLogsAux dec (i + 1) rest
    if isBlank line then r
    else
      match dec line with
      | some v => (v :: r.1, r.2)
      | none => (r.1, warnLine i :: r.2)

/-- The method _load_logs, lines 24 to 41: process the whole file,
lines numbered from 1, returning the parsed logs and the warnings. -/
def loadLogs (dec : String → Option JsonValue) (lines : List String) :
    List JsonValue × List String :=
  loadLogsAux dec 1 lines

/-- Per-line contribution of a file line to the parsed logs: nothing
when blank, otherwise whatever the decoder yields. -/
def decodedOf (dec : String → Option JsonValue) (line : String) : Option JsonValue :=
  if isBlank line then none else dec line

/-- Per-line contribution of a numbered file line to the warnings: one
warning exactly when the line is non-blank and fails to decode. -/
def warnOf (dec : String → Option JsonValue) (p : Nat × String) : Option String :=
  if isBlank p.2 then none
  else
    match dec p.2 with
    | some _ => none
    | none => some (warnLine p.1)

theorem loadLogsAux_eq (dec : String → Option JsonValue) (i : Nat) (lines : List String) :
    loadLogsAux dec i lines =
      (lines.filterMap (decodedOf dec), (List.enumFrom i lines).filterMap (warnOf dec)) := by
  induction lines generalizing i with
  | nil => simp [loadLogsAux]
  | cons line rest ih =>
    simp only [loadLogsAux, ih (i + 1), List.enumFrom, List.filterMap_cons, decodedOf, warnOf]
    cases hb : isBlank line with
    | true => simp [hb]
    | false =>
      cases hd : dec line with
      | none => simp [hb, hd]
      | some v => simp [hb, hd]

theorem loadLogs_eq (dec : String → Option JsonValue) (lines : List String) :
    loadLogs dec lines =
      (lines.filterMap (decodedOf dec), (List.enumFrom 1 lines).filterMap (warnOf dec)) :=
  loadLogsAux_eq dec 1 lines

/-- The decimal digit string underlying Nat.repr, most significant
digit first, expressed through the Mathlib digits function. -/
def decimalRep (n : Nat) : List Char :=
  if n = 0 then ['0'] else ((Nat.digits 10 n).map Nat.digitChar).reverse

theorem decimalRep_step (n : Nat) (h : n / 10 ≠ 0) :
    decimalRep n = decimalRep (n / 10) ++ [Nat.digitChar (n % 10)] := by
  have hn : n ≠ 0 := by
    intro hz; subst hz; simp at h
  unfold decimalRep
  rw [if_neg hn, if_neg h, Nat.digits_def' (by omega : (1 : Nat) < 10) (by omega : 0 < n)]
  simp

theorem toDigitsCore_eq (f : Nat) : ∀ (n : Nat) (ds : List Char), n < f →
    Nat.toDigitsCore 10 f n ds = decimalRep n ++ ds := by
  induction f with
  | zero => intro n ds h; omega
  | succ f ih =>
    intro n ds h
    rw [Nat.toDigitsCore]
    by_cases h10 : n / 10 = 0
    · simp only [h10, if_pos]
      by_cases hn : n = 0
      · subst hn; simp [decimalRep]; rfl
      · have hlt : n < 10 := (Nat.div_eq_zero_iff (by omega)).mp h10
        rw [decimalRep, if_neg hn, Nat.digits_of_lt 10 n hn hlt, Nat.mod_eq_of_lt hlt]
        simp
    · simp only [h10, if_neg, if_false]
      have hn : n ≠ 0 := by
        intro hz; subst hz; simp at h10
      have hdivlt : n / 10 < n := Nat.div_lt_self (by omega) (by omega)
      rw [ih (n / 10) _ (by omega), decimalRep_step n h10]
      simp

theorem repr_eq_decimalRep (n : Nat) : Nat.repr n = (decimalRep n).asString := by
  show (Nat.toDigits 10 n).asString = (decimalRep n).asString
  rw [Nat.toDigits, toDigitsCore_eq (n + 1) n [] (Nat.lt_succ_self n)]
  simp

theorem digitChar_inj_lt : ∀ a, a < 10 → ∀ b, b < 10 →
    Nat.digitChar a = Nat.digitChar b → a = b := by decide

theorem map_digitChar_inj : ∀ (l1 l2 : List Nat), (∀ d ∈ l1, d < 10) → (∀ d ∈ l2, d < 10) →
    l1.map Nat.digitChar = l2.map Nat.digitChar → l1 = l2 := by
  intro l1
  induction l1 with
  | nil => intro l2 _ _ h; cases l2 <;> simp_all
  | cons a t ih =>
    intro l2 h1 h2 h
    cases l2 with
    | nil => simp at h
    | cons b t2 =>
      simp only [List.map_cons, List.cons.injEq] at h
      have ha : a = b :=
        digitChar_inj_lt a (h1 a (by simp)) b (h2 b (by simp)) h.1
      have ht : t = t2 :=
        ih t2 (fun d hd => h1 d (by simp [hd])) (fun d hd => h2 d (by simp [hd])) h.2
      rw [ha, ht]

theorem decimalRep_single_zero (n : Nat) (h : decimalRep n = ['0']) : n = 0 := by
  by_cases hn : n = 0
  · exact hn
  · exfalso
    rw [decimalRep, if_neg hn] at h
    have hmap : (Nat.digits 10 n).map Nat.digitChar = ['0'] := by
      have := congrArg List.reverse h
      simpa using this
    rcases hd : Nat.digits 10 n with _ | ⟨d, ds⟩
    · rw [hd] at hmap; simp at hmap
    · rw [hd] at hmap
      simp only [List.map_cons, List.cons.injEq] at hmap
      have hds : ds = [] := by
        cases ds with
        | nil => rfl
        | cons x xs => simp at hmap
      subst hds
      have hdlt : d < 10 := Nat.digits_lt_base (by omega) (by rw [hd]; simp)
      have hd0 : d = 0 := digitChar_inj_lt d hdlt 0 (by omega) hmap.1
      subst hd0
      have := Nat.ofDigits_digits 10 n
      rw [hd] at this
      simp [Nat.ofDigits] at this
      exact hn this.symm

theorem decimalRep_zero : decimalRep 0 = ['0'] := by
  simp [decimalRep]

theorem decimalRep_inj (m n : Nat) (h : decimalRep m = decimalRep n) : m = n := by
  by_cases hm : m = 0
  · subst hm
    rw [decimalRep_zero] at h
    exact (decimalRep_single_zero n h.symm).symm
  · by_cases hn : n = 0
    · subst hn
      rw [decimalRep_zero] at h
      exact decimalRep_single_zero m h
    · unfold decimalRep at h
      rw [if_neg hm, if_neg hn] at h
      have hmap : (Nat.digits 10 m).map Nat.digitChar = (Nat.digits 10 n).map Nat.digitChar := by
        have := congrArg List.reverse h
        simpa using this
      have hdig : Nat.digits 10 m = Nat.digits 10 n :=
        map_digitChar_inj _ _ (fun d hd => Nat.digits_lt_base (by omega) hd)
          (fun d hd => Nat.digits_lt_base (by omega) hd) hmap
      exact Nat.digits_inj_iff.mp hdig

theorem natRepr_inj (m n : Nat) (h : Nat.repr m = Nat.repr n) : m = n := by
  rw [repr_eq_decimalRep, repr_eq_decimalRep] at h
  exact decimalRep_inj m n (congrArg String.data h)

/-- One Counter update for a key already checked hashable: an entry
whose key compares Python-equal gets its count incremented in place,
otherwise a fresh entry with count 1 is appended, matching dict
insertion order. -/
def counterBump (acc : List (JsonValue × Nat)) (k : JsonValue) : List (JsonValue × Nat) :=
  match acc with
  | [] => [(k, 1)]
  | (k0, c0) :: rest =>
    if pyEq k0 k then (k0, c0 + 1) :: rest
    else (k0, c0) :: counterBump rest k

/-- One Counter update: Python hashes the key before any comparison, so
an unhashable key (a list or dict) raises TypeError. -/
def counterAdd (acc : List (JsonValue × Nat)) (k : JsonValue) :
    Except PyError (List (JsonValue × Nat)) :=
  if hashable k then .ok (counterBump acc k)
  else .error (.typeError ("unhashable type: \x27".append ((pyTypeName k).append "\x27")))

/-- The Counter construction of display_summary, line 51: the Counter
consumes the generator, so for each record in order the level is
extracted with log.get("level", "UNKNOWN") and immediately counted; the
first exception raised along the way aborts the whole construction. -/
def buildCounter : List JsonValue → List (JsonValue × Nat) →
    Except PyError (List (JsonValue × Nat))
  | [], acc => .ok acc
  | log :: rest, acc =>
    match pyGet log "level" (.str "UNKNOWN") with
    | .error e => .error e
    | .ok k =>
      match counterAdd acc k with
      | .error e => .error e
      | .ok acc2 => buildCounter rest acc2

/-- Whether a counter key is a Python string. -/
def isStrKey : JsonValue → Bool
  | .str _ => true
  | _ => false

/-- The string carried by a string key, used for ordering. -/
def strKey : JsonValue → String
  | .str s => s
  | _ => ""

/-- The call sorted(level_counts.items()) of display_summary, line 58.
Python sorts the (key, count) tuples; the counter keys are pairwise
unequal, so only the key comparison matters.  With at most one entry no
comparison is evaluated; otherwise all keys must be mutually
comparable, which for hashable JSON values means all strings or all
numbers (bool counting as a number); any other mix raises TypeError.
The concrete TypeError message names the first incomparable pair the
sort happens to compare, which depends on the comparison order, so it
is modelled by a fixed description. -/
def pySortItems (items : List (JsonValue × Nat)) :
    Except PyError (List (JsonValue × Nat)) :=
  if items.length ≤ 1 then .ok items
  else if items.all (fun p => isStrKey p.1) then
    .ok (items.mergeSort (fun p q => decide (strKey p.1 ≤ strKey q.1)))
  else if items.all (fun p => (numVal p.1).isSome) then
    .ok (items.mergeSort (fun p q => decide ((numVal p.1).getD 0 ≤ (numVal q.1).getD 0)))
  else .error (.typeError "\x27<\x27 not supported between instances of the level key types")

/-- Pad a string on the right with spaces to width 10, the Python
format specification <10 applied to a string. -/
def padTo10 (s : String) : String :=
  if s.length < 10 then s.append (String.mk (List.replicate (10 - s.length) ' ')) else s

/-- The f-string fragment from display_summary, line 59, applied to a
level key.  Strings are padded; ints format as their decimal digits and
bools as 1 or 0, because int.__format__ handles a non-empty format
specification numerically; None and the container types have no
__format__ accepting a width, so they raise TypeError. -/
def pyFormatL10 : JsonValue → Except PyError String
  | .str s => .ok (padTo10 s)
  | .num n => .ok (padTo10 (toString n))
  | .bool b => .ok (padTo10 (if b then "1" else "0"))
  | v =>
    .error (.typeError ("unsupported format string passed to ".append
      ((pyTypeName v).append ".__format__")))

/-- The printing loop of display_summary, lines 56 to 60: one line per
sorted entry, accumulating the running total; a formatting error stops
the loop, keeping the lines already printed. -/
def printLoop : List (JsonValue × Nat) → Nat → List String × Except PyError Nat
  | [], total => ([], .ok total)
  | (k, c) :: rest, total =>
    match pyFormatL10 k with
    | .error e => ([], .error e)
    | .ok s =>
      let line := (s.append ": ").append (toString c)
      let r := printLoop rest (total + c)
      (line :: r.1, r.2)

/-- os.path.basename for the slash-separated paths the tool receives. -/
def basename (path : String) : String :=
  (path.splitOn "/").getLastD ""

/-- The header printed by display_summary, line 53. -/
def headerLine (filePath : String) : String :=
  ("\n📊 Log Level Summary for \x27".append (basename filePath)).append "\x27"

/-- The separator rule printed by display_summary, lines 54 and 62. -/
def ruleLine : String :=
  String.mk (List.replicate 50 '━')

/-- The final line printed by display_summary, line 63. -/
def totalLine (total : Nat) : String :=
  ((padTo10 "Total").append ": ").append ((toString total).append "\n")

/-- Everything observable about one call of display_summary: the lines
it printed, the Counter it managed to build, and the exception that
escaped it, if any. -/
structure DisplayOutcome where
  out : List String
  summary : Option (List (JsonValue × Nat))
  err : Option PyError
  deriving Repr

/-- The method display_summary, lines 43 to 63.  An empty collection
short-circuits to a single message.  Otherwise the Counter is built
before anything is printed, so a counting exception leaves no output;
a sorting exception occurs after the header and first rule; a
formatting exception keeps the per-level lines already printed; on
success the two rules and the Total line complete the report. -/
def display_summary (filePath : String) (logs : List JsonValue) : DisplayOutcome :=
  if logs.isEmpty then
    { out := ["No valid log entries found."], summary := none, err := none }
  else
    match buildCounter logs [] with
    | .error e => { out := [], summary := none, err := some e }
    | .ok counts =>
      match pySortItems counts with
      | .error e =>
        { out := [headerLine filePath, ruleLine], summary := some counts, err := some e }
      | .ok sorted =>
        match printLoop sorted 0 with
        | (ls, .error e) =>
          { out := headerLine filePath :: ruleLine :: ls,
            summary := some counts, err := some e }
        | (ls, .ok total) =>
          { out := (headerLine filePath :: ruleLine :: ls) ++ [ruleLine, totalLine total],
            summary := some counts, err := none }

/-- The filesystem as the program sees it: os.path.exists and the line
iteration of an opened file. -/
structure FileSystem where
  pathExists : String → Bool
  readLines : String → List String

/-- LogParser.__init__, lines 8 to 22: the existence check precedes any
read, raising FileNotFoundError with the message of line 19; otherwise
the file is loaded immediately and the parser state holds the path, the
parsed logs and the warnings printed while loading. -/
def logParserInit (fs : FileSystem) (dec : String → Option JsonValue) (filePath : String) :
    Except PyError (String × List JsonValue × List String) :=
  if fs.pathExists filePath then
    let r := loadLogs dec (fs.readLines filePath)
    .ok (filePath, r.1, r.2)
  else
    .error (.fileNotFoundError ("File doesn\x27t exists ".append filePath))

/-- The two except clauses of main, lines 84 to 87: FileNotFoundError
prints the bare message, every other exception prints the generic
unexpected-error line; in both cases main returns normally. -/
def errorReport : PyError → String
  | .fileNotFoundError msg => "❌ ".append msg
  | .attributeError msg => "❌ An unexpected error occurred: ".append msg
  | .typeError msg => "❌ An unexpected error occurred: ".append msg

/-- The function main, lines 66 to 87, after argument parsing: build
the parser and display the summary, catching FileNotFoundError and any
unexpected exception.  The returned list is everything printed to the
console, in order: the loader warnings, then the summary output, then
the error report, if any. -/
def mainRun (fs : FileSystem) (dec : String → Option JsonValue) (filename : String) :
    List String :=
  match logParserInit fs dec filename with
  | .error e => [errorReport e]
  | .ok (fp, logs, warns) =>
    let d := display_summary fp logs
    match d.err with
    | some e => (warns ++ d.out) ++ [errorReport e]
    | none => warns ++ d.out

/-- A miniature stand-in for json.loads covering the concrete lines
used in witnesses: the loader itself is proved correct for an arbitrary
decoder. -/
def decTest (line : String) : Option JsonValue :=
  if line == "\x7b\"level\": \"INFO\"\x7d" then some (.obj [("level", .str "INFO")])
  else if line == "\x7b\"level\": \"ERROR\"\x7d" then some (.obj [("level", .str "ERROR")])
  else if line == "\x7b\"msg\": \"no level field\"\x7d" then some (.obj [("msg", .str "no level field")])
  else if line == "5" then some (.num 5)
  else if line == "null" then some .null
  else none

theorem warnLine_inj (a b : Nat) (h : warnLine a = warnLine b) : a = b := by
  unfold warnLine at h
  have hd : (toString a).data = (toString b).data := by
    have := congrArg String.data h
    exact List.append_cancel_left this
  exact natRepr_inj a b (String.ext hd)

/-- The sum of all counts of a counter, the quantity shown as Total. -/
def countsSum (l : List (JsonValue × Nat)) : Nat :=
  (l.map (fun p => p.2)).sum

/-- Pairwise Python-inequality of the counter keys. -/
def KeysDistinct (l : List (JsonValue × Nat)) : Prop :=
  l.Pairwise (fun p q => pyEq p.1 q.1 = false)

theorem pyEq_refl (k : JsonValue) (h : hashable k = true) : pyEq k k = true := by
  cases k <;> simp_all [pyEq, hashable]

theorem pyEq_symm (a b : JsonValue) : pyEq a b = pyEq b a := by
  cases a <;> cases b <;> simp only [pyEq] <;> exact Bool.beq_comm

theorem pyGet_obj (fields : List (String × JsonValue)) (key : String) (default : JsonValue) :
    pyGet (.obj fields) key default = .ok ((lookupField fields key).getD default) := rfl

theorem counterAdd_ok (acc : List (JsonValue × Nat)) (k : JsonValue)
    (acc2 : List (JsonValue × Nat)) (h : counterAdd acc k = .ok acc2) :
    hashable k = true ∧ acc2 = counterBump acc k := by
  unfold counterAdd at h
  by_cases hh : hashable k = true
  · rw [if_pos hh] at h
    injection h with h2
    exact ⟨hh, h2.symm⟩
  · rw [if_neg hh] at h
    exact Except.noConfusion h

theorem counterBump_sum (acc : List (JsonValue × Nat)) (k : JsonValue) :
    countsSum (counterBump acc k) = countsSum acc + 1 := by
  induction acc with
  | nil => simp [counterBump, countsSum]
  | cons p rest ih =>
    obtain ⟨k0, c0⟩ := p
    by_cases h : pyEq k0 k = true
    · simp [counterBump, h, countsSum]
      omega
    · simp only [counterBump, Bool.not_eq_true] at h ⊢
      rw [if_neg (by simp [h])]
      simp only [countsSum, List.map_cons, List.sum_cons] at ih ⊢
      omega

theorem counterBump_keys (acc : List (JsonValue × Nat)) (k : JsonValue) :
    ∀ p ∈ counterBump acc k, p.1 ∈ acc.map Prod.fst ∨ p.1 = k := by
  induction acc with
  | nil =>
    intro p hp
    simp [counterBump] at hp
    simp [hp]
  | cons q rest ih =>
    obtain ⟨k0, c0⟩ := q
    intro p hp
    by_cases h : pyEq k0 k = true
    · simp only [counterBump, if_pos h] at hp
      rcases List.mem_cons.mp hp with h1 | h1
      · subst h1; simp
      · left
        simp only [List.map_cons, List.mem_cons]
        right
        exact List.mem_map.mpr ⟨p, h1, rfl⟩
    · simp only [counterBump, if_neg h] at hp
      rcases List.mem_cons.mp hp with h1 | h1
      · subst h1; simp
      · rcases ih p h1 with h2 | h2
        · left; simp only [List.map_cons, List.mem_cons]; right; exact h2
        · right; exact h2

theorem counterBump_keys_sup (acc : List (JsonValue × Nat)) (k : JsonValue) :
    ∀ x ∈ acc.map Prod.fst, x ∈ (counterBump acc k).map Prod.fst := by
  induction acc with
  | nil => intro x hx; simp at hx
  | cons q rest ih =>
    obtain ⟨k0, c0⟩ := q
    intro x hx
    rcases List.mem_cons.mp hx with h1 | h1
    · by_cases h : pyEq k0 k = true
      · simp [counterBump, if_pos h, h1]
      · simp [counterBump, if_neg h, h1]
    · by_cases h : pyEq k0 k = true
      · simp only [counterBump, if_pos h, List.map_cons, List.mem_cons]
        right; exact h1
      · simp only [counterBump, if_neg h, List.map_cons, List.mem_cons]
        right; exact ih x h1

theorem counterBump_matches (acc : List (JsonValue × Nat)) (k : JsonValue)
    (h : hashable k = true) : ∃ q ∈ counterBump acc k, pyEq q.1 k = true := by
  induction acc with
  | nil => exact ⟨(k, 1), by simp [counterBump], pyEq_refl k h⟩
  | cons p rest ih =>
    obtain ⟨k0, c0⟩ := p
    by_cases hq : pyEq k0 k = true
    · exact ⟨(k0, c0 + 1), by simp [counterBump, if_pos hq], hq⟩
    · obtain ⟨q, hq1, hq2⟩ := ih
      exact ⟨q, by simp only [counterBump, if_neg hq, List.mem_cons]; right; exact hq1, hq2⟩

theorem counterBump_key_prop (P : JsonValue → Prop) (acc : List (JsonValue × Nat))
    (k : JsonValue) (hk : P k) (h : ∀ p ∈ acc, P p.1) :
    ∀ p ∈ counterBump acc k, P p.1 := by
  intro p hp
  rcases counterBump_keys acc k p hp with hm | he
  · rcases List.mem_map.mp hm with ⟨q, hq, hqe⟩
    rw [← hqe]
    exact h q hq
  · rw [he]; exact hk

theorem counterBump_pos (acc : List (JsonValue × Nat)) (k : JsonValue)
    (h : ∀ p ∈ acc, 1 ≤ p.2) : ∀ p ∈ counterBump acc k, 1 ≤ p.2 := by
  induction acc with
  | nil =>
    intro p hp
    simp [counterBump] at hp
    simp [hp]
  | cons q rest ih =>
    obtain ⟨k0, c0⟩ := q
    intro p hp
    by_cases hq : pyEq k0 k = true
    · simp only [counterBump, if_pos hq] at hp
      rcases List.mem_cons.mp hp with h1 | h1
      · subst h1; simp
      · exact h p (by simp [h1])
    · simp only [counterBump, if_neg hq] at hp
      rcases List.mem_cons.mp hp with h1 | h1
      · subst h1; exact h (k0, c0) (by simp)
      · exact ih (fun r hr => h r (by simp [hr])) p h1

theorem counterBump_pairwise (acc : List (JsonValue × Nat)) (k : JsonValue)
    (hd : KeysDistinct acc) : KeysDistinct (counterBump acc k) := by
  induction acc with
  | nil => simp [counterBump, KeysDistinct]
  | cons q rest ih =>
    obtain ⟨k0, c0⟩ := q
    rcases List.pairwise_cons.mp hd with ⟨hhead, htail⟩
    by_cases hq : pyEq k0 k = true
    · unfold KeysDistinct
      simp only [counterBump, if_pos hq]
      exact List.pairwise_cons.mpr ⟨hhead, htail⟩
    · unfold KeysDistinct
      simp only [counterBump, if_neg hq]
      refine List.pairwise_cons.mpr ⟨?_, ih htail⟩
      intro p hp
      rcases counterBump_keys rest k p hp with hm | he
      · rcases List.mem_map.mp hm with ⟨r, hr, hre⟩
        rw [← hre]
        exact hhead r hr
      · rw [he]
        simpa using hq

theorem buildCounter_cons_ok (log : JsonValue) (rest : List JsonValue)
    (acc counts : List (JsonValue × Nat))
    (h : buildCounter (log :: rest) acc = .ok counts) :
    ∃ k, pyGet log "level" (.str "UNKNOWN") = .ok k ∧ hashable k = true ∧
      buildCounter rest (counterBump acc k) = .ok counts := by
  simp only [buildCounter] at h
  split at h
  next e heq => exact Except.noConfusion h
  next k heq =>
    split at h
    next e2 heq2 => exact Except.noConfusion h
    next acc2 heq2 =>
      obtain ⟨hh, hb⟩ := counterAdd_ok acc k acc2 heq2
      exact ⟨k, heq, hh, hb ▸ h⟩

theorem buildCounter_sum (logs : List JsonValue) :
    ∀ acc counts, buildCounter logs acc = .ok counts →
      countsSum counts = countsSum acc + logs.length := by
  induction logs with
  | nil =>
    intro acc counts h
    simp only [buildCounter, Except.ok.injEq] at h
    subst h; simp
  | cons log rest ih =>
    intro acc counts h
    obtain ⟨k, _, _, hrest⟩ := buildCounter_cons_ok log rest acc counts h
    have := ih _ _ hrest
    rw [this, counterBump_sum]
    simp only [List.length_cons]
    omega

theorem buildCounter_pairwise (logs : List JsonValue) :
    ∀ acc counts, buildCounter logs acc = .ok counts →
      KeysDistinct acc → KeysDistinct counts := by
  induction logs with
  | nil =>
    intro acc counts h hd
    simp only [buildCounter, Except.ok.injEq] at h
    subst h; exact hd
  | cons log rest ih =>
    intro acc counts h hd
    obtain ⟨k, _, _, hrest⟩ := buildCounter_cons_ok log rest acc counts h
    exact ih _ _ hrest (counterBump_pairwise acc k hd)

theorem buildCounter_pos (logs : List JsonValue) :
    ∀ acc counts, buildCounter logs acc = .ok counts →
      (∀ p ∈ acc, 1 ≤ p.2) → ∀ p ∈ counts, 1 ≤ p.2 := by
  induction logs with
  | nil =>
    intro acc counts h hp
    simp only [buildCounter, Except.ok.injEq] at h
    subst h; exact hp
  | cons log rest ih =>
    intro acc counts h hp
    obtain ⟨k, _, _, hrest⟩ := buildCounter_cons_ok log rest acc counts h
    exact ih _ _ hrest (counterBump_pos acc k hp)

theorem buildCounter_key_prop (P : JsonValue → Prop) (logs : List JsonValue) :
    ∀ acc counts, buildCounter logs acc = .ok counts →
      (∀ log ∈ logs, ∀ k, pyGet log "level" (.str "UNKNOWN") = .ok k → P k) →
      (∀ p ∈ acc, P p.1) → ∀ p ∈ counts, P p.1 := by
  induction logs with
  | nil =>
    intro acc counts h _ hp
    simp only [buildCounter, Except.ok.injEq] at h
    subst h; exact hp
  | cons log rest ih =>
    intro acc counts h hlev hp
    obtain ⟨k, hg, _, hrest⟩ := buildCounter_cons_ok log rest acc counts h
    refine ih _ _ hrest (fun l hl k2 hk2 => hlev l (by simp [hl]) k2 hk2) ?_
    exact counterBump_key_prop P acc k (hlev log (by simp) k hg) hp

theorem buildCounter_keys_sup (logs : List JsonValue) :
    ∀ acc counts, buildCounter logs acc = .ok counts →
      ∀ x ∈ acc.map Prod.fst, x ∈ counts.map Prod.fst := by
  induction logs with
  | nil =>
    intro acc counts h
    simp only [buildCounter, Except.ok.injEq] at h
    subst h; exact fun x hx => hx
  | cons log rest ih =>
    intro acc counts h x hx
    obtain ⟨k, _, _, hrest⟩ := buildCounter_cons_ok log rest acc counts h
    exact ih _ _ hrest x (counterBump_keys_sup acc k x hx)

theorem buildCounter_keys_from (logs : List JsonValue) :
    ∀ acc counts, buildCounter logs acc = .ok counts →
      ∀ p ∈ counts, p.1 ∈ acc.map Prod.fst ∨
        ∃ log ∈ logs, pyGet log "level" (.str "UNKNOWN") = .ok p.1 := by
  induction logs with
  | nil =>
    intro acc counts h p hp
    simp only [buildCounter, Except.ok.injEq] at h
    subst h
    left
    exact List.mem_map.mpr ⟨p, hp, rfl⟩
  | cons log rest ih =>
    intro acc counts h p hp
    obtain ⟨k, hg, _, hrest⟩ := buildCounter_cons_ok log rest acc counts h
    rcases ih _ _ hrest p hp with hm | ⟨l, hl, hpl⟩
    · rcases List.mem_map.mp hm with ⟨q, hq, hqe⟩
      rcases counterBump_keys acc k q hq with h2 | h2
      · left; rw [← hqe]; exact h2
      · right
        exact ⟨log, by simp, by rw [← hqe, h2]; exact hg⟩
    · right
      exact ⟨l, by simp [hl], hpl⟩

theorem buildCounter_covers (logs : List JsonValue) :
    ∀ acc counts, buildCounter logs acc = .ok counts →
      ∀ log ∈ logs, ∃ k, pyGet log "level" (.str "UNKNOWN") = .ok k ∧
        ∃ p ∈ counts, pyEq p.1 k = true := by
  induction logs with
  | nil => intro acc counts _ log hl; simp at hl
  | cons log0 rest ih =>
    intro acc counts h log hl
    obtain ⟨k, hg, hh, hrest⟩ := buildCounter_cons_ok log0 rest acc counts h
    rcases List.mem_cons.mp hl with h1 | h1
    · subst h1
      refine ⟨k, hg, ?_⟩
      obtain ⟨q, hq1, hq2⟩ := counterBump_matches acc k hh
      have hmem : q.1 ∈ counts.map Prod.fst :=
        buildCounter_keys_sup rest _ counts hrest q.1 (List.mem_map.mpr ⟨q, hq1, rfl⟩)
      rcases List.mem_map.mp hmem with ⟨p, hp, hpe⟩
      exact ⟨p, hp, by rw [hpe]; exact hq2⟩
    · exact ih _ _ hrest log h1

theorem countsSum_cons (p : JsonValue × Nat) (rest : List (JsonValue × Nat)) :
    countsSum (p :: rest) = p.2 + countsSum rest := by
  simp [countsSum]

theorem pySortItems_perm (items sorted : List (JsonValue × Nat))
    (h : pySortItems items = .ok sorted) : sorted.Perm items := by
  unfold pySortItems at h
  split at h
  · injection h with h2
    rw [← h2]
  · split at h
    · injection h with h2
      rw [← h2]
      exact List.mergeSort_perm items _
    · split at h
      · injection h with h2
        rw [← h2]
        exact List.mergeSort_perm items _
      · exact Except.noConfusion h

theorem pySortItems_sorted_str (items sorted : List (JsonValue × Nat))
    (h : pySortItems items = .ok sorted)
    (hstr : ∀ p ∈ items, isStrKey p.1 = true) :
    sorted.Pairwise (fun p q => strKey p.1 ≤ strKey q.1) := by
  unfold pySortItems at h
  by_cases h1 : items.length ≤ 1
  · rw [if_pos h1] at h
    injection h with h2
    rw [← h2]
    match items, h1 with
    | [], _ => exact List.Pairwise.nil
    | [a], _ => simp
  · rw [if_neg h1] at h
    have hall : (items.all fun p => isStrKey p.1) = true := by
      rw [List.all_eq_true]
      intro p hp
      exact hstr p hp
    rw [if_pos hall] at h
    injection h with h2
    rw [← h2]
    have htrans : ∀ (a b c : JsonValue × Nat),
        (fun p q => decide (strKey p.1 ≤ strKey q.1)) a b = true →
        (fun p q => decide (strKey p.1 ≤ strKey q.1)) b c = true →
        (fun p q => decide (strKey p.1 ≤ strKey q.1)) a c = true := by
      intro a b c hab hbc
      simp only [decide_eq_true_eq] at hab hbc ⊢
      exact le_trans hab hbc
    have htotal : ∀ (a b : JsonValue × Nat),
        ((fun p q => decide (strKey p.1 ≤ strKey q.1)) a b ||
          (fun p q => decide (strKey p.1 ≤ strKey q.1)) b a) = true := by
      intro a b
      simp only [Bool.or_eq_true, decide_eq_true_eq]
      exact le_total _ _
    have hs := List.sorted_mergeSort htrans htotal items
    exact hs.imp (fun hab => by simpa using hab)

theorem printLoop_ok (items : List (JsonValue × Nat)) :
    ∀ t ls total, printLoop items t = (ls, .ok total) →
      total = t + countsSum items ∧
      List.Forall₂ (fun (p : JsonValue × Nat) (l : String) =>
        ∃ s, pyFormatL10 p.1 = .ok s ∧ l = (s.append ": ").append (toString p.2)) items ls := by
  induction items with
  | nil =>
    intro t ls total h
    simp only [printLoop, Prod.mk.injEq] at h
    obtain ⟨h1, h2⟩ := h
    injection h2 with h3
    constructor
    · rw [← h3]; simp [countsSum]
    · rw [← h1]; exact List.Forall₂.nil
  | cons p rest ih =>
    obtain ⟨k, c⟩ := p
    intro t ls total h
    simp only [printLoop] at h
    split at h
    next e heq =>
      simp only [Prod.mk.injEq] at h
      exact Except.noConfusion h.2
    next s heq =>
      simp only [Prod.mk.injEq] at h
      obtain ⟨h1, h2⟩ := h
      have hr : printLoop rest (t + c) = ((printLoop rest (t + c)).1, .ok total) := by
        rw [← h2]
      obtain ⟨hsum, hforall⟩ := ih (t + c) (printLoop rest (t + c)).1 total hr
      constructor
      · rw [countsSum_cons]
        show total = t + (c + countsSum rest)
        omega
      · rw [← h1]
        exact List.Forall₂.cons ⟨s, heq, rfl⟩ hforall

theorem printLoop_ok_of_formattable (items : List (JsonValue × Nat))
    (hf : ∀ p ∈ items, ∃ s, pyFormatL10 p.1 = .ok s) :
    ∀ t, ∃ ls total, printLoop items t = (ls, .ok total) := by
  induction items with
  | nil => intro t; exact ⟨[], t, rfl⟩
  | cons p rest ih =>
    obtain ⟨k, c⟩ := p
    intro t
    obtain ⟨s, hs⟩ := hf (k, c) (by simp)
    have hs2 : pyFormatL10 k = .ok s := hs
    obtain ⟨ls, total, hr⟩ := ih (fun q hq => hf q (by simp [hq])) (t + c)
    refine ⟨((s.append ": ").append (toString c)) :: ls, total, ?_⟩
    simp only [printLoop, hs2, hr]

theorem display_ok_inv (fp : String) (logs : List JsonValue)
    (hne : logs ≠ []) (he : (display_summary fp logs).err = none) :
    ∃ counts sorted ls total,
      buildCounter logs [] = .ok counts ∧
      pySortItems counts = .ok sorted ∧
      printLoop sorted 0 = (ls, .ok total) ∧
      display_summary fp logs =
        { out := (headerLine fp :: ruleLine :: ls) ++ [ruleLine, totalLine total],
          summary := some counts, err := none } := by
  have hne2 : logs.isEmpty = false := by
    cases logs with
    | nil => exact absurd rfl hne
    | cons a t => rfl
  cases hbc : buildCounter logs [] with
  | error e =>
    exfalso
    have hd : (display_summary fp logs).err = some e := by
      simp [display_summary, hne2, hbc]
    rw [hd] at he
    exact Option.noConfusion he
  | ok counts =>
    cases hs : pySortItems counts with
    | error e =>
      exfalso
      have hd : (display_summary fp logs).err = some e := by
        simp [display_summary, hne2, hbc, hs]
      rw [hd] at he
      exact Option.noConfusion he
    | ok sorted =>
      cases hp : printLoop sorted 0 with
      | mk ls r =>
        cases r with
        | error e =>
          exfalso
          have hd : (display_summary fp logs).err = some e := by
            simp [display_summary, hne2, hbc, hs, hp]
          rw [hd] at he
          exact Option.noConfusion he
        | ok total =>
          refine ⟨counts, sorted, ls, total, rfl, hs, hp, ?_⟩
          simp [display_summary, hne2, hbc, hs, hp]

theorem warnOf_some (dec : String → Option JsonValue) (p : Nat × String) (w : String)
    (h : warnOf dec p = some w) :
    w = warnLine p.1 ∧ isBlank p.2 = false ∧ dec p.2 = none := by
  unfold warnOf at h
  by_cases hb : isBlank p.2 = true
  · rw [if_pos hb] at h
    exact Option.noConfusion h
  · rw [if_neg hb] at h
    cases hd : dec p.2 with
    | some v => rw [hd] at h; exact Option.noConfusion h
    | none =>
      rw [hd] at h
      injection h with h2
      exact ⟨h2.symm, by simpa using hb, rfl⟩

theorem warn_not_mem_lt (dec : String → Option JsonValue) (lines : List String) :
    ∀ j k, k < j → warnLine k ∉ (List.enumFrom j lines).filterMap (warnOf dec) := by
  induction lines with
  | nil => intro j k _ h; simp at h
  | cons line rest ih =>
    intro j k hk h
    simp only [List.enumFrom, List.filterMap_cons] at h
    cases hw : warnOf dec (j, line) with
    | none =>
      rw [hw] at h
      exact ih (j + 1) k (by omega) h
    | some w =>
      rw [hw] at h
      rcases List.mem_cons.mp h with h1 | h1
      · obtain ⟨hw2, _, _⟩ := warnOf_some dec (j, line) w hw
        rw [hw2] at h1
        have := warnLine_inj k j h1
        omega
      · exact ih (j + 1) k (by omega) h1

theorem warn_count_one (dec : String → Option JsonValue) (lines : List String) :
    ∀ j i line, lines.get? i = some line → isBlank line = false → dec line = none →
      ((List.enumFrom j lines).filterMap (warnOf dec)).count (warnLine (j + i)) = 1 := by
  induction lines with
  | nil => intro j i line h; simp at h
  | cons l rest ih =>
    intro j i line hget hb hd
    cases i with
    | zero =>
      have hl : l = line := by
        injection hget
      subst hl
      have hw : warnOf dec (j, l) = some (warnLine j) := by
        unfold warnOf
        rw [if_neg (by simp [hb]), hd]
      simp only [List.enumFrom, List.filterMap_cons, hw, Nat.add_zero]
      rw [List.count_cons_self]
      rw [List.count_eq_zero.mpr (warn_not_mem_lt dec rest (j + 1) j (by omega))]
    | succ i2 =>
      have hget2 : rest.get? i2 = some line := hget
      have harith : j + 1 + i2 = j + (i2 + 1) := by omega
      have htail := ih (j + 1) i2 line hget2 hb hd
      rw [harith] at htail
      simp only [List.enumFrom, List.filterMap_cons]
      cases hw : warnOf dec (j, l) with
      | none => exact htail
      | some w =>
        obtain ⟨hw2, _, _⟩ := warnOf_some dec (j, l) w hw
        have hw3 : w = warnLine j := hw2
        rw [List.count_cons, htail]
        have hne : (w == warnLine (j + (i2 + 1))) = false := by
          rw [hw3, beq_eq_false_iff_ne]
          intro hcontra
          have := warnLine_inj j (j + (i2 + 1)) hcontra
          omega
        simp [hne]

theorem filterMap_decoded_length (dec : String → Option JsonValue) (lines : List String) :
    (lines.filterMap (decodedOf dec)).length =
      (lines.filter (fun l => !isBlank l && (dec l).isSome)).length := by
  induction lines with
  | nil => rfl
  | cons l rest ih =>
    simp only [List.filterMap_cons, List.filter_cons]
    by_cases hb : isBlank l = true
    · simp [decodedOf, hb, ih]
    · cases hd : dec l with
      | none => simp [decodedOf, hb, hd, ih]
      | some v => simp [decodedOf, hb, hd, ih]

theorem warnlen_eq (dec : String → Option JsonValue) (lines : List String) :
    ∀ j, ((List.enumFrom j lines).filterMap (warnOf dec)).length =
      (lines.filter (fun l => !isBlank l && (dec l).isNone)).length := by
  induction lines with
  | nil => intro j; rfl
  | cons l rest ih =>
    intro j
    simp only [List.enumFrom, List.filterMap_cons, List.filter_cons]
    by_cases hb : isBlank l = true
    · simp [warnOf, hb, ih (j + 1)]
    · cases hd : dec l with
      | some v => simp [warnOf, hb, hd, ih (j + 1)]
      | none => simp [warnOf, hb, hd, ih (j + 1)]

theorem filterMap_eraseIdx_none {α β : Type} (f : α → Option β) (l : List α) :
    ∀ i a, l.get? i = some a → f a = none → (l.eraseIdx i).filterMap f = l.filterMap f := by
  induction l with
  | nil => intro i a h; simp at h
  | cons x rest ih =>
    intro i a h hf
    cases i with
    | zero =>
      injection h with h2
      subst h2
      simp [List.eraseIdx_cons_zero, List.filterMap_cons, hf]
    | succ i2 =>
      simp only [List.eraseIdx_cons_succ, List.filterMap_cons]
      rw [ih i2 a h hf]

theorem filter_eraseIdx_false {α : Type} (pred : α → Bool) (l : List α) :
    ∀ i a, l.get? i = some a → pred a = false → (l.eraseIdx i).filter pred = l.filter pred := by
  induction l with
  | nil => intro i a h; simp at h
  | cons x rest ih =>
    intro i a h hf
    cases i with
    | zero =>
      injection h with h2
      subst h2
      simp [List.eraseIdx_cons_zero, List.filter_cons, hf]
    | succ i2 =>
      simp only [List.eraseIdx_cons_succ, List.filter_cons]
      rw [ih i2 a h hf]

/-- C4: every non-blank line that fails JSON decoding produces exactly
one warning carrying its 1-based line number, contributes nothing to
the parsed collection, and does not stop the loader: the collection is
still exactly the decodable content of all the other lines. -/
theorem malformed_line_one_warning (dec : String → Option JsonValue) (lines : List String)
    (i : Nat) (line : String) (hget : lines.get? i = some line)
    (hb : isBlank line = false) (hd : dec line = none) :
    ((loadLogs dec lines).2).count (warnLine (i + 1)) = 1 ∧
      (loadLogs dec lines).1 = lines.filterMap (decodedOf dec) := by
  constructor
  · rw [loadLogs_eq]
    have h1 := warn_count_one dec lines 1 i line hget hb hd
    have harith : 1 + i = i + 1 := by omega
    rw [harith] at h1
    exact h1
  · rw [loadLogs_eq]

theorem malformed_line_one_warning_witness :
    ((loadLogs decTest ["\x7b\"level\": \"INFO\"\x7d", "not-json"]).2).count (warnLine 2) = 1 ∧
      (loadLogs decTest ["\x7b\"level\": \"INFO\"\x7d", "not-json"]).1 =
        ["\x7b\"level\": \"INFO\"\x7d", "not-json"].filterMap (decodedOf decTest) :=
  malformed_line_one_warning decTest ["\x7b\"level\": \"INFO\"\x7d", "not-json"] 1 "not-json"
    rfl rfl rfl

/-- C5: the loader appends every successfully decoded non-blank line
value in file order, whether or not it is an object, and the length of
the collection is the number of decodable non-blank lines. -/
theorem loader_appends_all_decoded (dec : String → Option JsonValue) (lines : List String) :
    (loadLogs dec lines).1 = lines.filterMap (decodedOf dec) ∧
      (loadLogs dec lines).1.length =
        (lines.filter (fun l => !isBlank l && (dec l).isSome)).length := by
  constructor
  · rw [loadLogs_eq]
  · rw [loadLogs_eq]
    exact filterMap_decoded_length dec lines

/-- C6: a whitespace-only line is silently skipped: removing it from
the file changes neither the parsed collection nor the number of
warnings. -/
theorem blank_line_silently_skipped (dec : String → Option JsonValue) (lines : List String)
    (i : Nat) (line : String) (hget : lines.get? i = some line) (hb : isBlank line = true) :
    (loadLogs dec lines).1 = (loadLogs dec (lines.eraseIdx i)).1 ∧
      (loadLogs dec lines).2.length = (loadLogs dec (lines.eraseIdx i)).2.length := by
  constructor
  · rw [loadLogs_eq, loadLogs_eq]
    exact (filterMap_eraseIdx_none (decodedOf dec) lines i line hget
      (by simp [decodedOf, hb])).symm
  · rw [loadLogs_eq, loadLogs_eq]
    rw [warnlen_eq dec lines 1, warnlen_eq dec (lines.eraseIdx i) 1]
    exact congrArg List.length (filter_eraseIdx_false
      (fun l => !isBlank l && (dec l).isNone) lines i line hget (by simp [hb])).symm

theorem blank_line_silently_skipped_witness :
    (loadLogs decTest ["   ", "\x7b\"level\": \"INFO\"\x7d"]).1 =
        (loadLogs decTest (["   ", "\x7b\"level\": \"INFO\"\x7d"].eraseIdx 0)).1 ∧
      (loadLogs decTest ["   ", "\x7b\"level\": \"INFO\"\x7d"]).2.length =
        (loadLogs decTest (["   ", "\x7b\"level\": \"INFO\"\x7d"].eraseIdx 0)).2.length :=
  blank_line_silently_skipped decTest ["   ", "\x7b\"level\": \"INFO\"\x7d"] 0 "   " rfl rfl

theorem buildCounter_error_of_non_mapping (logs : List JsonValue) :
    ∀ acc log, log ∈ logs → isMapping log = false →
      ∃ e, buildCounter logs acc = .error e := by
  induction logs with
  | nil => intro acc log h; simp at h
  | cons l rest ih =>
    intro acc log hmem hnm
    rcases List.mem_cons.mp hmem with h1 | h1
    · subst h1
      have hget : ∃ m, pyGet log "level" (.str "UNKNOWN") = .error (.attributeError m) := by
        cases log with
        | obj f => simp [isMapping] at hnm
        | null => exact ⟨_, rfl⟩
        | bool b => exact ⟨_, rfl⟩
        | num n => exact ⟨_, rfl⟩
        | str s => exact ⟨_, rfl⟩
        | arr a => exact ⟨_, rfl⟩
      obtain ⟨m, hm⟩ := hget
      exact ⟨.attributeError m, by simp only [buildCounter, hm]⟩
    · cases hg : pyGet l "level" (.str "UNKNOWN") with
      | error e => exact ⟨e, by simp only [buildCounter, hg]⟩
      | ok k =>
        cases ha : counterAdd acc k with
        | error e => exact ⟨e, by simp only [buildCounter, hg, ha]⟩
        | ok acc2 =>
          obtain ⟨e, he⟩ := ih acc2 log h1 hnm
          exact ⟨e, by simp only [buildCounter, hg, ha, he]⟩

theorem buildCounter_ok_numeric (logs : List JsonValue) :
    (∀ l ∈ logs, ∃ f n, l = JsonValue.obj f ∧ lookupField f "level" = some (.num n)) →
    ∀ acc, (∀ p ∈ acc, (numVal p.1).isSome = true) →
      ∃ counts, buildCounter logs acc = .ok counts ∧
        ∀ p ∈ counts, (numVal p.1).isSome = true := by
  induction logs with
  | nil => intro _ acc hacc; exact ⟨acc, rfl, hacc⟩
  | cons l rest ih =>
    intro hnum acc hacc
    obtain ⟨f, n, hl, hf⟩ := hnum l (by simp)
    subst hl
    have hg : pyGet (.obj f) "level" (.str "UNKNOWN") = .ok (.num n) := by
      rw [pyGet_obj, hf]
      rfl
    have ha : counterAdd acc (.num n) = .ok (counterBump acc (.num n)) := rfl
    have hbump : ∀ p ∈ counterBump acc (.num n), (numVal p.1).isSome = true :=
      counterBump_key_prop (fun k => (numVal k).isSome = true) acc (.num n) rfl hacc
    obtain ⟨counts, hrest, hc⟩ :=
      ih (fun q hq => hnum q (by simp [hq])) (counterBump acc (.num n)) hbump
    refine ⟨counts, ?_, hc⟩
    simp only [buildCounter, hg, ha]
    exact hrest

theorem pySortItems_ok_numeric (items : List (JsonValue × Nat))
    (h : ∀ p ∈ items, (numVal p.1).isSome = true) :
    ∃ sorted, pySortItems items = .ok sorted := by
  unfold pySortItems
  by_cases h1 : items.length ≤ 1
  · rw [if_pos h1]
    exact ⟨items, rfl⟩
  · rw [if_neg h1]
    by_cases h2 : (items.all fun p => isStrKey p.1) = true
    · rw [if_pos h2]
      exact ⟨_, rfl⟩
    · rw [if_neg h2]
      have h3 : (items.all fun p => (numVal p.1).isSome) = true := by
        rw [List.all_eq_true]
        exact h
      rw [if_pos h3]
      exact ⟨_, rfl⟩

theorem pyFormatL10_ok_numeric (k : JsonValue) (h : (numVal k).isSome = true) :
    ∃ s, pyFormatL10 k = .ok s := by
  cases k with
  | null => simp [numVal] at h
  | str s => simp [numVal] at h
  | arr a => simp [numVal] at h
  | obj f => simp [numVal] at h
  | num n => exact ⟨_, rfl⟩
  | bool b => exact ⟨_, rfl⟩

/-- C1: whenever the summarizer builds the LevelSummary and the report
completes, the sum of all counts equals the number of loaded records,
and the final printed line is the Total line showing exactly that
sum. -/
theorem summary_total_eq_length (fp : String) (logs : List JsonValue)
    (counts : List (JsonValue × Nat))
    (hs : (display_summary fp logs).summary = some counts)
    (he : (display_summary fp logs).err = none) :
    countsSum counts = logs.length ∧
      (display_summary fp logs).out.getLast? = some (totalLine logs.length) := by
  have hne : logs ≠ [] := by
    intro hz
    subst hz
    simp [display_summary] at hs
  obtain ⟨counts2, sorted, ls, total, hbc, hsort, hpl, hdisp⟩ := display_ok_inv fp logs hne he
  rw [hdisp] at hs
  have hc : counts2 = counts := by
    simpa using hs
  subst hc
  have hsum : countsSum counts2 = logs.length := by
    have h1 := buildCounter_sum logs [] counts2 hbc
    simpa [countsSum] using h1
  have hperm := pySortItems_perm counts2 sorted hsort
  have htotal := (printLoop_ok sorted 0 ls total hpl).1
  have hsort_sum : countsSum sorted = countsSum counts2 := by
    unfold countsSum
    exact (hperm.map (fun p => p.2)).sum_eq
  have htl : total = logs.length := by omega
  refine ⟨hsum, ?_⟩
  rw [hdisp, htl]
  show ((headerLine fp :: ruleLine :: ls) ++ [ruleLine, totalLine logs.length]).getLast? =
    some (totalLine logs.length)
  rw [show [ruleLine, totalLine logs.length] = [ruleLine] ++ [totalLine logs.length] from rfl,
    ← List.append_assoc]
  exact List.getLast?_concat _

theorem summary_total_eq_length_witness :
    countsSum [(JsonValue.str "INFO", 1)] =
        [JsonValue.obj [("level", JsonValue.str "INFO")]].length ∧
      (display_summary "app.jsonl"
        [JsonValue.obj [("level", JsonValue.str "INFO")]]).out.getLast? =
        some (totalLine 1) :=
  summary_total_eq_length "app.jsonl" [JsonValue.obj [("level", JsonValue.str "INFO")]]
    [(JsonValue.str "INFO", 1)] rfl rfl

/-- C2 counterexample: a record decoded as the number 5 is not counted
under UNKNOWN; the summarizer raises AttributeError, producing no
summary and no output at all. -/
theorem non_mapping_crashes_summarizer :
    display_summary "app.jsonl" [JsonValue.num 5] =
      { out := [], summary := none,
        err := some (.attributeError "\x27int\x27 object has no attribute \x27get\x27") } := rfl

/-- C2 amended: for mapping records the summarizer reads the value at
key "level", falling back to UNKNOWN exactly when the key is absent;
but a record that is not a mapping makes the summarizer raise
AttributeError: it is not counted under UNKNOWN and no LevelSummary is
produced. -/
theorem level_extraction_mapping_only :
    (∀ (fields : List (String × JsonValue)) (d : JsonValue),
      pyGet (.obj fields) "level" d = .ok ((lookupField fields "level").getD d)) ∧
    (∀ (fp : String) (logs : List JsonValue) (log : JsonValue), log ∈ logs →
      isMapping log = false →
      (display_summary fp logs).summary = none ∧
        (display_summary fp logs).err.isSome = true) := by
  constructor
  · intro fields d
    exact pyGet_obj fields "level" d
  · intro fp logs log hmem hnm
    have hne2 : logs.isEmpty = false := by
      cases logs with
      | nil => simp at hmem
      | cons a t => rfl
    obtain ⟨e, he⟩ := buildCounter_error_of_non_mapping logs [] log hmem hnm
    constructor
    · simp [display_summary, hne2, he]
    · simp [display_summary, hne2, he]

theorem level_extraction_mapping_only_witness :
    pyGet (.obj [("level", JsonValue.str "DEBUG")]) "level" (JsonValue.str "UNKNOWN") =
        .ok ((lookupField [("level", JsonValue.str "DEBUG")] "level").getD
          (JsonValue.str "UNKNOWN")) ∧
      ((display_summary "app.jsonl" [JsonValue.num 5]).summary = none ∧
        (display_summary "app.jsonl" [JsonValue.num 5]).err.isSome = true) :=
  ⟨level_extraction_mapping_only.1 [("level", JsonValue.str "DEBUG")] (JsonValue.str "UNKNOWN"),
    level_extraction_mapping_only.2 "app.jsonl" [JsonValue.num 5] (JsonValue.num 5)
      (by simp) rfl⟩

/-- C3 counterexample: a record whose level value is JSON null makes
the summarizer raise TypeError while formatting; the report is cut
short after the header and the first rule, with no level line and no
Total line. -/
theorem null_level_crashes_formatting :
    display_summary "app.jsonl" [JsonValue.obj [("level", JsonValue.null)]] =
      { out := [headerLine "app.jsonl", ruleLine],
        summary := some [(JsonValue.null, 1)],
        err := some (.typeError "unsupported format string passed to NoneType.__format__") } :=
  rfl

/-- C3 amended: numeric level values do not crash the summarizer: when
every record is a mapping whose level value is a number, the run
completes and the LevelSummary is produced with those values as keys;
but a null level value raises TypeError during formatting and the
report is not completed. -/
theorem numeric_levels_do_not_crash :
    (∀ (fp : String) (logs : List JsonValue), logs ≠ [] →
      (∀ l ∈ logs, ∃ f n, l = JsonValue.obj f ∧ lookupField f "level" = some (.num n)) →
      (display_summary fp logs).err = none ∧
        ((display_summary fp logs).summary).isSome = true) ∧
    (display_summary "app.jsonl" [JsonValue.obj [("level", JsonValue.null)]]).err =
      some (.typeError "unsupported format string passed to NoneType.__format__") := by
  constructor
  · intro fp logs hne hnum
    have hne2 : logs.isEmpty = false := by
      cases logs with
      | nil => exact absurd rfl hne
      | cons a t => rfl
    obtain ⟨counts, hbc, hkeys⟩ :=
      buildCounter_ok_numeric logs hnum [] (by intro p hp; simp at hp)
    obtain ⟨sorted, hsort⟩ := pySortItems_ok_numeric counts hkeys
    have hperm := pySortItems_perm counts sorted hsort
    have hfmt : ∀ p ∈ sorted, ∃ s, pyFormatL10 p.1 = .ok s := by
      intro p hp
      exact pyFormatL10_ok_numeric p.1 (hkeys p (hperm.mem_iff.mp hp))
    obtain ⟨ls, total, hpl⟩ := printLoop_ok_of_formattable sorted hfmt 0
    constructor
    · simp [display_summary, hne2, hbc, hsort, hpl]
    · simp [display_summary, hne2, hbc, hsort, hpl]
  · rfl

theorem numeric_levels_do_not_crash_witness :
    (display_summary "app.jsonl" [JsonValue.obj [("level", JsonValue.num 7)]]).err = none ∧
      ((display_summary "app.jsonl" [JsonValue.obj [("level", JsonValue.num 7)]]).summary).isSome =
        true :=
  numeric_levels_do_not_crash.1 "app.jsonl" [JsonValue.obj [("level", JsonValue.num 7)]]
    (by simp)
    (by
      intro l hl
      simp only [List.mem_singleton] at hl
      subst hl
      exact ⟨[("level", JsonValue.num 7)], 7, rfl, rfl⟩)

/-- C7: when a non-empty collection is successfully summarised, the
report body has exactly one line per counter entry, the entries are a
permutation of the LevelSummary with pairwise distinct keys, every
count is at least one, every entry comes from the level of some record,
every record level is represented, and when all levels are strings the
entries appear in lexicographic order of the level names. -/
theorem report_one_sorted_line_per_level (fp : String) (logs : List JsonValue)
    (hne : logs ≠ []) (he : (display_summary fp logs).err = none) :
    ∃ counts sorted ls,
      (display_summary fp logs).summary = some counts ∧
      pySortItems counts = .ok sorted ∧
      (display_summary fp logs).out =
        (headerLine fp :: ruleLine :: ls) ++ [ruleLine, totalLine (countsSum counts)] ∧
      List.Forall₂ (fun (p : JsonValue × Nat) (l : String) =>
        ∃ s, pyFormatL10 p.1 = .ok s ∧ l = (s.append ": ").append (toString p.2)) sorted ls ∧
      sorted.Perm counts ∧
      sorted.Pairwise (fun p q => pyEq p.1 q.1 = false) ∧
      (∀ p ∈ sorted, 1 ≤ p.2) ∧
      (∀ p ∈ sorted, ∃ log ∈ logs, pyGet log "level" (.str "UNKNOWN") = .ok p.1) ∧
      (∀ log ∈ logs, ∃ k, pyGet log "level" (.str "UNKNOWN") = .ok k ∧
        ∃ p ∈ sorted, pyEq p.1 k = true) ∧
      ((∀ p ∈ sorted, isStrKey p.1 = true) →
        sorted.Pairwise (fun p q => strKey p.1 ≤ strKey q.1)) := by
  obtain ⟨counts, sorted, ls, total, hbc, hsort, hpl, hdisp⟩ := display_ok_inv fp logs hne he
  have hperm := pySortItems_perm counts sorted hsort
  obtain ⟨htotal, hforall⟩ := printLoop_ok sorted 0 ls total hpl
  have hsort_sum : countsSum sorted = countsSum counts := by
    unfold countsSum
    exact (hperm.map (fun p => p.2)).sum_eq
  refine ⟨counts, sorted, ls, ?_, hsort, ?_, hforall, hperm, ?_, ?_, ?_, ?_, ?_⟩
  · rw [hdisp]
  · rw [hdisp]
    have : total = countsSum counts := by omega
    rw [this]
  · have hdc : KeysDistinct counts :=
      buildCounter_pairwise logs [] counts hbc (by simp [KeysDistinct])
    refine (hperm.pairwise_iff ?_).mpr hdc
    intro x y hxy
    rw [pyEq_symm]
    exact hxy
  · intro p hp
    exact buildCounter_pos logs [] counts hbc (by intro q hq; simp at hq) p
      (hperm.mem_iff.mp hp)
  · intro p hp
    rcases buildCounter_keys_from logs [] counts hbc p (hperm.mem_iff.mp hp) with hm | hm
    · simp at hm
    · exact hm
  · intro log hl
    obtain ⟨k, hk, p, hp, hpe⟩ := buildCounter_covers logs [] counts hbc log hl
    exact ⟨k, hk, p, hperm.mem_iff.mpr hp, hpe⟩
  · intro hstr
    exact pySortItems_sorted_str counts sorted hsort
      (fun p hp => hstr p (hperm.mem_iff.mpr hp))

theorem report_one_sorted_line_per_level_witness :
    ∃ counts sorted ls,
      (display_summary "app.jsonl" [JsonValue.obj [("level", JsonValue.str "INFO")]]).summary =
        some counts ∧
      pySortItems counts = .ok sorted ∧
      (display_summary "app.jsonl" [JsonValue.obj [("level", JsonValue.str "INFO")]]).out =
        (headerLine "app.jsonl" :: ruleLine :: ls) ++ [ruleLine, totalLine (countsSum counts)] ∧
      List.Forall₂ (fun (p : JsonValue × Nat) (l : String) =>
        ∃ s, pyFormatL10 p.1 = .ok s ∧ l = (s.append ": ").append (toString p.2)) sorted ls ∧
      sorted.Perm counts ∧
      sorted.Pairwise (fun p q => pyEq p.1 q.1 = false) ∧
      (∀ p ∈ sorted, 1 ≤ p.2) ∧
      (∀ p ∈ sorted, ∃ log ∈ [JsonValue.obj [("level", JsonValue.str "INFO")]],
        pyGet log "level" (.str "UNKNOWN") = .ok p.1) ∧
      (∀ log ∈ [JsonValue.obj [("level", JsonValue.str "INFO")]],
        ∃ k, pyGet log "level" (.str "UNKNOWN") = .ok k ∧
          ∃ p ∈ sorted, pyEq p.1 k = true) ∧
      ((∀ p ∈ sorted, isStrKey p.1 = true) →
        sorted.Pairwise (fun p q => strKey p.1 ≤ strKey q.1)) :=
  report_one_sorted_line_per_level "app.jsonl" [JsonValue.obj [("level", JsonValue.str "INFO")]]
    (by simp) rfl

/-- C8: for a path that does not exist, main reports the
FileNotFoundError message and completes normally; the result does not
depend on the reading function, so nothing is read, and the single
printed line is the error report: no summary, no warnings. -/
theorem missing_path_reported (fs : FileSystem) (dec : String → Option JsonValue)
    (filename : String) (h : fs.pathExists filename = false) :
    mainRun fs dec filename = ["❌ ".append ("File doesn\x27t exists ".append filename)] := by
  simp [mainRun, logParserInit, h, errorReport]

theorem missing_path_reported_witness :
    mainRun ⟨fun _ => false, fun _ => []⟩ decTest "missing.jsonl" =
      ["❌ ".append ("File doesn\x27t exists ".append "missing.jsonl")] :=
  missing_path_reported ⟨fun _ => false, fun _ => []⟩ decTest "missing.jsonl" rfl

/-- C9: an empty collection produces the single no-entries message and
stops: no header, no level lines, no zero-filled Total line, and no
LevelSummary. -/
theorem empty_collection_no_entries (fp : String) :
    display_summary fp [] =
      { out := ["No valid log entries found."], summary := none, err := none } := rfl

/-- C10: when the key "level" is present in a mapping record, the
record is grouped under the bound value itself, even when that value is
null or otherwise falsy; the UNKNOWN fallback plays no role. -/
theorem present_level_key_used (fields : List (String × JsonValue)) (v : JsonValue)
    (rest : List JsonValue) (acc : List (JsonValue × Nat))
    (h : lookupField fields "level" = some v) :
    pyGet (.obj fields) "level" (.str "UNKNOWN") = .ok v ∧
      buildCounter (JsonValue.obj fields :: rest) acc = counterAdd acc v >>= buildCounter rest := by
  have h1 : pyGet (.obj fields) "level" (.str "UNKNOWN") = .ok v := by
    rw [pyGet_obj, h]
    rfl
  refine ⟨h1, ?_⟩
  simp only [buildCounter, h1]
  cases counterAdd acc v with
  | error e => rfl
  | ok a => rfl

theorem present_level_key_used_witness :
    pyGet (.obj [("level", JsonValue.null)]) "level" (.str "UNKNOWN") = .ok JsonValue.null ∧
      buildCounter [JsonValue.obj [("level", JsonValue.null)]] [] =
        counterAdd [] JsonValue.null >>= buildCounter [] :=
  present_level_key_used [("level", JsonValue.null)] JsonValue.null [] [] rfl

end LogSpec
